import Mathlib

/-!
Verification of the market-analysis core of the hack-nation2025 backend.

The Python sources embedded here:
* `app/utils/market_analysis.py` — `_calculate_expected_values` with its inner
  helpers `_position_cost`, `_position_profit`, `_joint_probabilities`, and
  `calculate_volatility`;
* `app/services/relation_service.py` — `calculate_pressure`,
  `_calculate_volatility_from_price_changes`, `create_relation`;
* `create_relations.py` — relation staging and deduplication;
* `app/services/vector_service.py` — `find_markets_in_proximity`.

Python floats are modelled as real numbers; machine components (database,
AI calls, logging) are out of scope, and the functions below are the pure
computations the services perform on already-fetched data.
-/

set_option maxHeartbeats 1000000

noncomputable section

namespace HackNation

/-- The fields of `app.schemas.market_schema.Market` that the analysis code
reads: the id and the three optional price-change signals.  Outcome prices are
passed separately to the expected-value solver (it only reads the first one). -/
structure Market where
  id : ℤ
  one_day_price_change : Option ℝ
  one_week_price_change : Option ℝ
  one_month_price_change : Option ℝ

/-- A recommended position after normalization: the code upper-cases the
incoming string, maps anything outside `{YES, NO, AVOID}` (and a missing
recommendation) to `AVOID`. -/
inductive Position
  | YES
  | NO
  | AVOID
deriving DecidableEq

/-- `max(0.0, min(1.0, x))` — the clamp applied to prices and estimated
probabilities in `_calculate_expected_values`. -/
def clamp01 (x : ℝ) : ℝ := max 0 (min 1 x)

/-- `_position_cost(position, price)` from `market_analysis.py`. -/
def positionCost : Position → ℝ → ℝ
  | Position.YES, price => price
  | Position.NO, price => 1 - price
  | Position.AVOID, _ => 0

/-- `_position_profit(position, price, outcome_yes)` from `market_analysis.py`. -/
def positionProfit : Position → ℝ → Bool → ℝ
  | Position.YES, price, outcomeYes => if outcomeYes then 1 - price else -price
  | Position.NO, price, outcomeYes => if outcomeYes then -(1 - price) else price
  | Position.AVOID, _, _ => 0

/-- The correlation direction of `_calculate_expected_values`: `+1` when both
positions are active and equal, `-1` when both are active and different, `0`
otherwise (the Python `elif` branch re-assigns the initial `0.0`). -/
def direction (pos1 pos2 : Position) : ℝ :=
  if pos1 ≠ Position.AVOID ∧ pos2 ≠ Position.AVOID then
    (if pos1 = pos2 then 1 else -1)
  else 0

/-- The `eps = 1e-6` guard of `_joint_probabilities`. -/
def epsMarginal : ℝ := 1e-6

/-- `p = min(1 - eps, max(eps, p))` — marginal clamping in
`_joint_probabilities`. -/
def clampMarginal (p : ℝ) : ℝ := min (1 - epsMarginal) (max epsMarginal p)

/-- `rho = max(-0.95, min(0.95, rho))` — the correlation clamp used both on the
signed correlation and inside `_joint_probabilities`. -/
def clampRho (rho : ℝ) : ℝ := max (-0.95) (min 0.95 rho)

/-- The clamped `p11` of `_joint_probabilities`: the Gaussian-copula style
estimate `p_a*p_b + rho*sqrt(p_a(1-p_a)p_b(1-p_b))` clamped into the
Fréchet bounds `[max(0, p_a+p_b-1), min(p_a, p_b)]`, computed on the
eps-clamped marginals and the clamped correlation. -/
def jointP11 (pA pB rho0 : ℝ) : ℝ :=
  let pa := clampMarginal pA
  let pb := clampMarginal pB
  let rho := clampRho rho0
  let rootTerm := Real.sqrt (max (pa * (1 - pa) * pb * (1 - pb)) 0)
  min (max (pa * pb + rho * rootTerm) (max 0 (pa + pb - 1))) (min pa pb)

/-- The four scenario probabilities returned by `_joint_probabilities`
(keys `both_yes`, `market1_yes_market2_no`, `market1_no_market2_yes`,
`both_no`). -/
structure JointProbs where
  both_yes : ℝ
  market1_yes_market2_no : ℝ
  market1_no_market2_yes : ℝ
  both_no : ℝ

/-- `_joint_probabilities(p_a, p_b, rho)` from `market_analysis.py`: derive the
remaining cells from the clamped `p11`, floor each at `0`, renormalize by the
total when it is positive, and fall back to the independence table otherwise. -/
def jointProbabilities (pA pB rho0 : ℝ) : JointProbs :=
  let pa := clampMarginal pA
  let pb := clampMarginal pB
  let p11 := jointP11 pA pB rho0
  let p10 := pa - p11
  let p01 := pb - p11
  let p00 := 1 - pa - pb + p11
  let q11 := max p11 0
  let q10 := max p10 0
  let q01 := max p01 0
  let q00 := max p00 0
  let total := q11 + q10 + q01 + q00
  if 0 < total then
    ⟨q11 / total, q10 / total, q01 / total, q00 / total⟩
  else
    ⟨pa * pb, pa * (1 - pb), (1 - pa) * pb, (1 - pa) * (1 - pb)⟩

lemma epsMarginal_pos : 0 < epsMarginal := by
  unfold epsMarginal; norm_num

lemma epsMarginal_le : epsMarginal ≤ 1 - epsMarginal := by
  unfold epsMarginal; norm_num

lemma clampMarginal_lower (p : ℝ) : epsMarginal ≤ clampMarginal p :=
  le_min epsMarginal_le (le_max_left _ _)

lemma clampMarginal_upper (p : ℝ) : clampMarginal p ≤ 1 - epsMarginal :=
  min_le_left _ _

lemma clampMarginal_pos (p : ℝ) : 0 < clampMarginal p :=
  lt_of_lt_of_le epsMarginal_pos (clampMarginal_lower p)

lemma clampMarginal_lt_one (p : ℝ) : clampMarginal p < 1 :=
  lt_of_le_of_lt (clampMarginal_upper p) (by have := epsMarginal_pos; linarith)

lemma clampMarginal_near (p : ℝ) (h0 : 0 < p) (h1 : p < 1) :
    |clampMarginal p - p| ≤ epsMarginal := by
  have hlow : p - epsMarginal ≤ clampMarginal p := by
    apply le_min
    · linarith
    · exact le_trans (by have := epsMarginal_pos; linarith) (le_max_right _ _)
  have hhigh : clampMarginal p ≤ p + epsMarginal := by
    apply le_trans (min_le_right _ _)
    apply max_le
    · linarith
    · have := epsMarginal_pos; linarith
  rw [abs_le]
  constructor <;> linarith

lemma jointP11_lower (pA pB rho : ℝ) :
    max 0 (clampMarginal pA + clampMarginal pB - 1) ≤ jointP11 pA pB rho := by
  unfold jointP11
  apply le_min
  · exact le_max_right _ _
  · apply max_le
    · exact le_min (le_of_lt (clampMarginal_pos pA)) (le_of_lt (clampMarginal_pos pB))
    · apply le_min
      · have := le_of_lt (clampMarginal_lt_one pB); linarith
      · have := le_of_lt (clampMarginal_lt_one pA); linarith

lemma jointP11_upper (pA pB rho : ℝ) :
    jointP11 pA pB rho ≤ min (clampMarginal pA) (clampMarginal pB) := by
  unfold jointP11
  exact min_le_right _ _

lemma jointP11_nonneg (pA pB rho : ℝ) : 0 ≤ jointP11 pA pB rho :=
  le_trans (le_max_left _ _) (jointP11_lower pA pB rho)

/-- The branch actually taken by `_joint_probabilities`: the flooring and the
renormalization are identities, so the table is exactly
`(p11, p_a - p11, p_b - p11, 1 - p_a - p_b + p11)` on the clamped marginals. -/
lemma jointProbabilities_eq (pA pB rho : ℝ) :
    jointProbabilities pA pB rho =
      ⟨jointP11 pA pB rho,
       clampMarginal pA - jointP11 pA pB rho,
       clampMarginal pB - jointP11 pA pB rho,
       1 - clampMarginal pA - clampMarginal pB + jointP11 pA pB rho⟩ := by
  have hl := jointP11_lower pA pB rho
  have hu := jointP11_upper pA pB rho
  have h11 : 0 ≤ jointP11 pA pB rho := jointP11_nonneg pA pB rho
  have h10 : 0 ≤ clampMarginal pA - jointP11 pA pB rho := by
    have := le_trans hu (min_le_left _ _); linarith
  have h01 : 0 ≤ clampMarginal pB - jointP11 pA pB rho := by
    have := le_trans hu (min_le_right _ _); linarith
  have h00 : 0 ≤ 1 - clampMarginal pA - clampMarginal pB + jointP11 pA pB rho := by
    have := le_trans (le_max_right 0 (clampMarginal pA + clampMarginal pB - 1)) hl
    linarith
  unfold jointProbabilities
  dsimp only
  rw [max_eq_left h11, max_eq_left h10, max_eq_left h01, max_eq_left h00]
  have htotal : jointP11 pA pB rho + (clampMarginal pA - jointP11 pA pB rho) +
      (clampMarginal pB - jointP11 pA pB rho) +
      (1 - clampMarginal pA - clampMarginal pB + jointP11 pA pB rho) = 1 := by
    ring
  rw [htotal]
  rw [if_pos (by norm_num : (0:ℝ) < 1)]
  simp

/-- Claim C1: for marginals in `(0,1)` and correlation in `[-0.95, 0.95]`, the
2x2 joint table of `_joint_probabilities` has each entry in `[0,1]`, the four
entries sum to exactly `1` (real arithmetic), and the marginals recovered as
`p11 + p10` and `p11 + p01` are within the eps-clamping tolerance `1e-6` of
the input true probabilities. -/
theorem jointProbabilities_normalized (pA pB rho : ℝ)
    (hA0 : 0 < pA) (hA1 : pA < 1) (hB0 : 0 < pB) (hB1 : pB < 1)
    (hr0 : -0.95 ≤ rho) (hr1 : rho ≤ 0.95) :
    (0 ≤ (jointProbabilities pA pB rho).both_yes ∧
      (jointProbabilities pA pB rho).both_yes ≤ 1) ∧
    (0 ≤ (jointProbabilities pA pB rho).market1_yes_market2_no ∧
      (jointProbabilities pA pB rho).market1_yes_market2_no ≤ 1) ∧
    (0 ≤ (jointProbabilities pA pB rho).market1_no_market2_yes ∧
      (jointProbabilities pA pB rho).market1_no_market2_yes ≤ 1) ∧
    (0 ≤ (jointProbabilities pA pB rho).both_no ∧
      (jointProbabilities pA pB rho).both_no ≤ 1) ∧
    (jointProbabilities pA pB rho).both_yes +
      (jointProbabilities pA pB rho).market1_yes_market2_no +
      (jointProbabilities pA pB rho).market1_no_market2_yes +
      (jointProbabilities pA pB rho).both_no = 1 ∧
    |(jointProbabilities pA pB rho).both_yes +
      (jointProbabilities pA pB rho).market1_yes_market2_no - pA| ≤ 1e-6 ∧
    |(jointProbabilities pA pB rho).both_yes +
      (jointProbabilities pA pB rho).market1_no_market2_yes - pB| ≤ 1e-6 := by
  have heps : epsMarginal = 1e-6 := rfl
  have hl := jointP11_lower pA pB rho
  have hu := jointP11_upper pA pB rho
  have h11 : 0 ≤ jointP11 pA pB rho := jointP11_nonneg pA pB rho
  have hua : jointP11 pA pB rho ≤ clampMarginal pA := le_trans hu (min_le_left _ _)
  have hub : jointP11 pA pB rho ≤ clampMarginal pB := le_trans hu (min_le_right _ _)
  have hfr : clampMarginal pA + clampMarginal pB - 1 ≤ jointP11 pA pB rho :=
    le_trans (le_max_right _ _) hl
  have hA := clampMarginal_pos pA
  have hA' := clampMarginal_lt_one pA
  have hB := clampMarginal_pos pB
  have hB' := clampMarginal_lt_one pB
  have hnearA := clampMarginal_near pA hA0 hA1
  have hnearB := clampMarginal_near pB hB0 hB1
  rw [jointProbabilities_eq]
  dsimp only
  rw [heps] at hnearA hnearB
  refine ⟨⟨h11, by linarith⟩, ⟨by linarith, by linarith⟩,
    ⟨by linarith, by linarith⟩, ⟨by linarith, by linarith⟩, by ring, ?_, ?_⟩
  · have : jointP11 pA pB rho + (clampMarginal pA - jointP11 pA pB rho) - pA =
        clampMarginal pA - pA := by ring
    rw [this]
    exact hnearA
  · have : jointP11 pA pB rho + (clampMarginal pB - jointP11 pA pB rho) - pB =
        clampMarginal pB - pB := by ring
    rw [this]
    exact hnearB

/-- Witness for C1 at the concrete input `p_a = p_b = 1/2`, `rho = 1/2`. -/
theorem jointProbabilities_normalized_witness :
    (0 < (1/2 : ℝ) ∧ (1/2 : ℝ) < 1 ∧ (-0.95 : ℝ) ≤ 1/2 ∧ (1/2 : ℝ) ≤ 0.95) ∧
    ((0 ≤ (jointProbabilities (1/2) (1/2) (1/2)).both_yes ∧
      (jointProbabilities (1/2) (1/2) (1/2)).both_yes ≤ 1) ∧
    (0 ≤ (jointProbabilities (1/2) (1/2) (1/2)).market1_yes_market2_no ∧
      (jointProbabilities (1/2) (1/2) (1/2)).market1_yes_market2_no ≤ 1) ∧
    (0 ≤ (jointProbabilities (1/2) (1/2) (1/2)).market1_no_market2_yes ∧
      (jointProbabilities (1/2) (1/2) (1/2)).market1_no_market2_yes ≤ 1) ∧
    (0 ≤ (jointProbabilities (1/2) (1/2) (1/2)).both_no ∧
      (jointProbabilities (1/2) (1/2) (1/2)).both_no ≤ 1) ∧
    (jointProbabilities (1/2) (1/2) (1/2)).both_yes +
      (jointProbabilities (1/2) (1/2) (1/2)).market1_yes_market2_no +
      (jointProbabilities (1/2) (1/2) (1/2)).market1_no_market2_yes +
      (jointProbabilities (1/2) (1/2) (1/2)).both_no = 1 ∧
    |(jointProbabilities (1/2) (1/2) (1/2)).both_yes +
      (jointProbabilities (1/2) (1/2) (1/2)).market1_yes_market2_no - 1/2| ≤ 1e-6 ∧
    |(jointProbabilities (1/2) (1/2) (1/2)).both_yes +
      (jointProbabilities (1/2) (1/2) (1/2)).market1_no_market2_yes - 1/2| ≤ 1e-6) :=
  ⟨⟨by norm_num, by norm_num, by norm_num, by norm_num⟩,
    jointProbabilities_normalized (1/2) (1/2) (1/2)
      (by norm_num) (by norm_num) (by norm_num) (by norm_num) (by norm_num) (by norm_num)⟩

/-- The result dictionary of `_calculate_expected_values` (the numeric fields;
the four scenario profits appear as separate fields). -/
structure EVResult where
  total_expected_profit : ℝ
  expected_roi : ℝ
  total_stake : ℝ
  market1_ev : ℝ
  market2_ev : ℝ
  scenario_probabilities : JointProbs
  profit_both_yes : ℝ
  profit_market1_yes_market2_no : ℝ
  profit_market1_no_market2_yes : ℝ
  profit_both_no : ℝ
  best_case_profit : ℝ
  worst_case_profit : ℝ
  signed_correlation : ℝ
  true_prob_market1 : ℝ
  true_prob_market2 : ℝ
  price_market1 : ℝ
  price_market2 : ℝ

/-- The strategy summary string of `_calculate_expected_values`, one
constructor per branch of the Python code:
* `noAction` stands for "No actionable strategy - both markets flagged as
  AVOID." (the zero-stake short-circuit);
* `holdCash` stands for "Hold cash – no favorable trades identified."
  (no strategy parts);
* `trade pos1 pos2 ep ts roi best worst` stands for the formatted string
  listing the non-AVOID actions with expected profit `ep`, stake `ts`,
  ROI `roi` and best/worst cases. -/
inductive Strategy
  | noAction
  | holdCash
  | trade (pos1 pos2 : Position) (expectedProfit totalStake roi best worst : ℝ)

/-- `stake_market1 + stake_market2` as computed from the clamped prices. -/
def totalStakeOf (priceRaw1 priceRaw2 : ℝ) (pos1 pos2 : Position) : ℝ :=
  positionCost pos1 (clamp01 priceRaw1) + positionCost pos2 (clamp01 priceRaw2)

/-- The all-zero result of the zero-stake short-circuit (the dictionary built
when `total_stake == 0`). -/
def evZeroResult (trueProb1 trueProb2 price1 price2 : ℝ) : EVResult :=
  ⟨0, 0, 0, 0, 0, ⟨0, 0, 0, 0⟩, 0, 0, 0, 0, 0, 0, 0,
    trueProb1, trueProb2, price1, price2⟩

/-- The main branch of `_calculate_expected_values` (total stake nonzero):
direction, signed correlation, joint probabilities, scenario profits,
expected profit, per-market edges, best/worst cases and the ROI. -/
def evMain (priceRaw1 priceRaw2 correlation : ℝ) (pos1 pos2 : Position)
    (estProb1 estProb2 : Option ℝ) : EVResult × Strategy :=
  let price1 := clamp01 priceRaw1
  let price2 := clamp01 priceRaw2
  let trueProb1 := clamp01 (estProb1.getD price1)
  let trueProb2 := clamp01 (estProb2.getD price2)
  let totalStake := totalStakeOf priceRaw1 priceRaw2 pos1 pos2
  let signedCorr := clampRho (correlation * direction pos1 pos2)
  let jp := jointProbabilities trueProb1 trueProb2 signedCorr
  let profitYY := positionProfit pos1 price1 true + positionProfit pos2 price2 true
  let profitYN := positionProfit pos1 price1 true + positionProfit pos2 price2 false
  let profitNY := positionProfit pos1 price1 false + positionProfit pos2 price2 true
  let profitNN := positionProfit pos1 price1 false + positionProfit pos2 price2 false
  let expectedProfit := profitYY * jp.both_yes + profitYN * jp.market1_yes_market2_no
    + profitNY * jp.market1_no_market2_yes + profitNN * jp.both_no
  let market1EV :=
    match pos1 with
    | Position.YES => trueProb1 - price1
    | Position.NO => price1 - trueProb1
    | Position.AVOID => 0
  let market2EV :=
    match pos2 with
    | Position.YES => trueProb2 - price2
    | Position.NO => price2 - trueProb2
    | Position.AVOID => 0
  let bestCase := max (max (max profitYY profitYN) profitNY) profitNN
  let worstCase := min (min (min profitYY profitYN) profitNY) profitNN
  let expectedROI := if totalStake = 0 then 0 else expectedProfit / totalStake
  (⟨expectedProfit, expectedROI, totalStake, market1EV, market2EV, jp,
      profitYY, profitYN, profitNY, profitNN, bestCase, worstCase, signedCorr,
      trueProb1, trueProb2, price1, price2⟩,
    if pos1 = Position.AVOID ∧ pos2 = Position.AVOID then Strategy.holdCash
    else Strategy.trade pos1 pos2 expectedProfit totalStake expectedROI bestCase worstCase)

/-- `_calculate_expected_values` from `market_analysis.py`, after price
extraction: `priceRaw1`/`priceRaw2` are the parsed first outcome prices
(defaulting to `0.5` upstream when missing), `pos1`/`pos2` the normalized
recommended positions, `estProb1`/`estProb2` the AI probability estimates
(`none` falls back to the market price). -/
def calculateExpectedValues (priceRaw1 priceRaw2 correlation : ℝ)
    (pos1 pos2 : Position) (estProb1 estProb2 : Option ℝ) : EVResult × Strategy :=
  let price1 := clamp01 priceRaw1
  let price2 := clamp01 priceRaw2
  let trueProb1 := clamp01 (estProb1.getD price1)
  let trueProb2 := clamp01 (estProb2.getD price2)
  if totalStakeOf priceRaw1 priceRaw2 pos1 pos2 = 0 then
    (evZeroResult trueProb1 trueProb2 price1 price2, Strategy.noAction)
  else
    evMain priceRaw1 priceRaw2 correlation pos1 pos2 estProb1 estProb2

lemma calculateExpectedValues_of_zero_stake (priceRaw1 priceRaw2 correlation : ℝ)
    (pos1 pos2 : Position) (estProb1 estProb2 : Option ℝ)
    (h : totalStakeOf priceRaw1 priceRaw2 pos1 pos2 = 0) :
    calculateExpectedValues priceRaw1 priceRaw2 correlation pos1 pos2 estProb1 estProb2 =
      (evZeroResult (clamp01 (estProb1.getD (clamp01 priceRaw1)))
        (clamp01 (estProb2.getD (clamp01 priceRaw2)))
        (clamp01 priceRaw1) (clamp01 priceRaw2), Strategy.noAction) := by
  unfold calculateExpectedValues
  rw [if_pos h]

lemma calculateExpectedValues_of_stake_ne (priceRaw1 priceRaw2 correlation : ℝ)
    (pos1 pos2 : Position) (estProb1 estProb2 : Option ℝ)
    (h : totalStakeOf priceRaw1 priceRaw2 pos1 pos2 ≠ 0) :
    calculateExpectedValues priceRaw1 priceRaw2 correlation pos1 pos2 estProb1 estProb2 =
      evMain priceRaw1 priceRaw2 correlation pos1 pos2 estProb1 estProb2 := by
  unfold calculateExpectedValues
  rw [if_neg h]

/-- Claim C4: when both recommended positions are AVOID the solver
short-circuits: expected profit, ROI, stake and both per-market EVs are all
zero, and the strategy is the no-actionable-strategy message. -/
theorem evSolver_both_avoid_zero (priceRaw1 priceRaw2 correlation : ℝ)
    (estProb1 estProb2 : Option ℝ) :
    (calculateExpectedValues priceRaw1 priceRaw2 correlation
        Position.AVOID Position.AVOID estProb1 estProb2).1.total_expected_profit = 0 ∧
    (calculateExpectedValues priceRaw1 priceRaw2 correlation
        Position.AVOID Position.AVOID estProb1 estProb2).1.expected_roi = 0 ∧
    (calculateExpectedValues priceRaw1 priceRaw2 correlation
        Position.AVOID Position.AVOID estProb1 estProb2).1.total_stake = 0 ∧
    (calculateExpectedValues priceRaw1 priceRaw2 correlation
        Position.AVOID Position.AVOID estProb1 estProb2).1.market1_ev = 0 ∧
    (calculateExpectedValues priceRaw1 priceRaw2 correlation
        Position.AVOID Position.AVOID estProb1 estProb2).1.market2_ev = 0 ∧
    (calculateExpectedValues priceRaw1 priceRaw2 correlation
        Position.AVOID Position.AVOID estProb1 estProb2).2 = Strategy.noAction := by
  have h : totalStakeOf priceRaw1 priceRaw2 Position.AVOID Position.AVOID = 0 := by
    unfold totalStakeOf positionCost
    norm_num
  rw [calculateExpectedValues_of_zero_stake _ _ _ _ _ _ _ h]
  unfold evZeroResult
  norm_num

/-- Claim C10: the short-circuit of `_calculate_expected_values` fires whenever
the total stake is `0`, not only when both positions are AVOID.  In particular
a YES position at price `0` on both markets (and a NO position at price `1` on
both markets) yields the all-zero result and the strategy message claiming
both markets were flagged as AVOID, with neither position being AVOID. -/
theorem evSolver_zero_stake_short_circuit (priceRaw1 priceRaw2 correlation : ℝ)
    (pos1 pos2 : Position) (estProb1 estProb2 : Option ℝ)
    (h : totalStakeOf priceRaw1 priceRaw2 pos1 pos2 = 0) :
    ((calculateExpectedValues priceRaw1 priceRaw2 correlation
        pos1 pos2 estProb1 estProb2).1.total_expected_profit = 0 ∧
      (calculateExpectedValues priceRaw1 priceRaw2 correlation
        pos1 pos2 estProb1 estProb2).1.expected_roi = 0 ∧
      (calculateExpectedValues priceRaw1 priceRaw2 correlation
        pos1 pos2 estProb1 estProb2).1.total_stake = 0 ∧
      (calculateExpectedValues priceRaw1 priceRaw2 correlation
        pos1 pos2 estProb1 estProb2).2 = Strategy.noAction) ∧
    (Position.YES ≠ Position.AVOID ∧
      totalStakeOf 0 0 Position.YES Position.YES = 0 ∧
      (calculateExpectedValues 0 0 (0.8) Position.YES Position.YES
        (some 0.5) (some 0.5)).1.total_expected_profit = 0 ∧
      (calculateExpectedValues 0 0 (0.8) Position.YES Position.YES
        (some 0.5) (some 0.5)).2 = Strategy.noAction) ∧
    (Position.NO ≠ Position.AVOID ∧
      totalStakeOf 1 1 Position.NO Position.NO = 0 ∧
      (calculateExpectedValues 1 1 (0.8) Position.NO Position.NO
        (some 0.5) (some 0.5)).2 = Strategy.noAction) := by
  have hyy : totalStakeOf 0 0 Position.YES Position.YES = 0 := by
    unfold totalStakeOf positionCost clamp01
    norm_num
  have hnn : totalStakeOf 1 1 Position.NO Position.NO = 0 := by
    unfold totalStakeOf positionCost clamp01
    norm_num
  refine ⟨?_, ⟨by simp, hyy, ?_, ?_⟩, ⟨by simp, hnn, ?_⟩⟩
  · rw [calculateExpectedValues_of_zero_stake _ _ _ _ _ _ _ h]
    unfold evZeroResult
    norm_num
  · rw [calculateExpectedValues_of_zero_stake _ _ _ _ _ _ _ hyy]
    unfold evZeroResult
    norm_num
  · rw [calculateExpectedValues_of_zero_stake _ _ _ _ _ _ _ hyy]
  · rw [calculateExpectedValues_of_zero_stake _ _ _ _ _ _ _ hnn]

/-- Witness for C10 at the concrete input of two YES positions at price `0`. -/
theorem evSolver_zero_stake_short_circuit_witness :
    totalStakeOf 0 0 Position.YES Position.YES = 0 ∧
    (calculateExpectedValues 0 0 (0.8) Position.YES Position.YES
      (some 0.5) (some 0.5)).2 = Strategy.noAction :=
  have h : totalStakeOf 0 0 Position.YES Position.YES = 0 := by
    unfold totalStakeOf positionCost clamp01
    norm_num
  ⟨h, (evSolver_zero_stake_short_circuit 0 0 (0.8) Position.YES Position.YES
      (some 0.5) (some 0.5) h).2.1.2.2.2⟩

lemma evMain_signed_correlation (p1 p2 c : ℝ) (q1 q2 : Position) (e1 e2 : Option ℝ) :
    (evMain p1 p2 c q1 q2 e1 e2).1.signed_correlation =
      clampRho (c * direction q1 q2) := rfl

lemma evMain_scenario_probabilities (p1 p2 c : ℝ) (q1 q2 : Position) (e1 e2 : Option ℝ) :
    (evMain p1 p2 c q1 q2 e1 e2).1.scenario_probabilities =
      jointProbabilities (clamp01 (e1.getD (clamp01 p1)))
        (clamp01 (e2.getD (clamp01 p2))) (clampRho (c * direction q1 q2)) := rfl

lemma evMain_total_expected_profit (p1 p2 c : ℝ) (q1 q2 : Position) (e1 e2 : Option ℝ) :
    (evMain p1 p2 c q1 q2 e1 e2).1.total_expected_profit =
      (positionProfit q1 (clamp01 p1) true + positionProfit q2 (clamp01 p2) true) *
        (jointProbabilities (clamp01 (e1.getD (clamp01 p1)))
          (clamp01 (e2.getD (clamp01 p2))) (clampRho (c * direction q1 q2))).both_yes +
      (positionProfit q1 (clamp01 p1) true + positionProfit q2 (clamp01 p2) false) *
        (jointProbabilities (clamp01 (e1.getD (clamp01 p1)))
          (clamp01 (e2.getD (clamp01 p2)))
          (clampRho (c * direction q1 q2))).market1_yes_market2_no +
      (positionProfit q1 (clamp01 p1) false + positionProfit q2 (clamp01 p2) true) *
        (jointProbabilities (clamp01 (e1.getD (clamp01 p1)))
          (clamp01 (e2.getD (clamp01 p2)))
          (clampRho (c * direction q1 q2))).market1_no_market2_yes +
      (positionProfit q1 (clamp01 p1) false + positionProfit q2 (clamp01 p2) false) *
        (jointProbabilities (clamp01 (e1.getD (clamp01 p1)))
          (clamp01 (e2.getD (clamp01 p2))) (clampRho (c * direction q1 q2))).both_no := rfl

/-- Claim C5: with both positions non-AVOID the direction is `+1` on equal
labels and `-1` on different ones; with exactly one active position the
direction is `0`; and the signed correlation the solver stores (and feeds to
the joint-probability table) is `correlation * direction` clamped into
`[-0.95, 0.95]`. -/
theorem evSolver_direction_signed_correlation
    (pos1 pos2 : Position) (correlation priceRaw1 priceRaw2 : ℝ)
    (estProb1 estProb2 : Option ℝ)
    (h : totalStakeOf priceRaw1 priceRaw2 pos1 pos2 ≠ 0) :
    (pos1 ≠ Position.AVOID → pos2 ≠ Position.AVOID →
      direction pos1 pos2 = if pos1 = pos2 then 1 else -1) ∧
    (pos1 = Position.AVOID → pos2 ≠ Position.AVOID → direction pos1 pos2 = 0) ∧
    (pos1 ≠ Position.AVOID → pos2 = Position.AVOID → direction pos1 pos2 = 0) ∧
    (calculateExpectedValues priceRaw1 priceRaw2 correlation
        pos1 pos2 estProb1 estProb2).1.signed_correlation =
      max (-0.95) (min 0.95 (correlation * direction pos1 pos2)) := by
  refine ⟨?_, ?_, ?_, ?_⟩
  · intro h1 h2
    unfold direction
    rw [if_pos ⟨h1, h2⟩]
  · intro h1 h2
    unfold direction
    rw [if_neg (by simp [h1])]
  · intro h1 h2
    unfold direction
    rw [if_neg (by simp [h2])]
  · rw [calculateExpectedValues_of_stake_ne _ _ _ _ _ _ _ h]
    rfl

/-- Witness for C5 at two YES positions on markets priced `0.4` and `0.6`. -/
theorem evSolver_direction_signed_correlation_witness :
    totalStakeOf (0.4) (0.6) Position.YES Position.YES ≠ 0 ∧
    (calculateExpectedValues (0.4) (0.6) (0.8) Position.YES Position.YES
        (some 0.55) (some 0.6)).1.signed_correlation =
      max (-0.95) (min 0.95 ((0.8 : ℝ) * direction Position.YES Position.YES)) :=
  have h : totalStakeOf (0.4) (0.6) Position.YES Position.YES ≠ 0 := by
    unfold totalStakeOf positionCost clamp01
    norm_num
  ⟨h, (evSolver_direction_signed_correlation Position.YES Position.YES (0.8)
      (0.4) (0.6) (some 0.55) (some 0.6) h).2.2.2⟩

/-- Claim C3: for Market A priced `0.40` (estimated true probability `0.55`,
position YES) and Market B priced `0.60` (estimated true probability `0.60`,
position YES) with correlation `0.8`: the direction is `+1`, the signed
correlation is `0.8`, the joint probability `p11` strictly exceeds the
independence product `0.55 * 0.6 = 0.33`, and the total expected profit is
strictly positive. -/
theorem evSolver_concrete_positive :
    direction Position.YES Position.YES = 1 ∧
    (calculateExpectedValues (0.4) (0.6) (0.8) Position.YES Position.YES
      (some 0.55) (some 0.6)).1.signed_correlation = 0.8 ∧
    (0.55 : ℝ) * 0.6 = 0.33 ∧
    0.33 < (calculateExpectedValues (0.4) (0.6) (0.8) Position.YES Position.YES
      (some 0.55) (some 0.6)).1.scenario_probabilities.both_yes ∧
    0 < (calculateExpectedValues (0.4) (0.6) (0.8) Position.YES Position.YES
      (some 0.55) (some 0.6)).1.total_expected_profit := by
  have hdir : direction Position.YES Position.YES = 1 := by
    unfold direction
    rw [if_pos ⟨by decide, by decide⟩, if_pos rfl]
  have hstake : totalStakeOf (0.4) (0.6) Position.YES Position.YES ≠ 0 := by
    unfold totalStakeOf positionCost clamp01
    norm_num
  have hev := calculateExpectedValues_of_stake_ne (0.4) (0.6) (0.8)
    Position.YES Position.YES (some 0.55) (some 0.6) hstake
  have hc4 : clamp01 (0.4 : ℝ) = 0.4 := by unfold clamp01; norm_num
  have hc6 : clamp01 (0.6 : ℝ) = 0.6 := by unfold clamp01; norm_num
  have hc55 : clamp01 (0.55 : ℝ) = 0.55 := by unfold clamp01; norm_num
  have hcm55 : clampMarginal (0.55 : ℝ) = 0.55 := by
    unfold clampMarginal epsMarginal
    norm_num
  have hcm6 : clampMarginal (0.6 : ℝ) = 0.6 := by
    unfold clampMarginal epsMarginal
    norm_num
  have hrho : clampRho ((0.8 : ℝ) * direction Position.YES Position.YES) = 0.8 := by
    rw [hdir]
    unfold clampRho
    norm_num
  have hs0 : 0 < Real.sqrt (0.0594 : ℝ) := Real.sqrt_pos.mpr (by norm_num)
  have hsq : Real.sqrt (0.0594 : ℝ) ^ 2 = 0.0594 := Real.sq_sqrt (by norm_num)
  have hsle : Real.sqrt (0.0594 : ℝ) ≤ 0.275 := by nlinarith [hs0.le]
  have hp11 : jointP11 (0.55) (0.6) (0.8) = 0.33 + 0.8 * Real.sqrt (0.0594 : ℝ) := by
    unfold jointP11
    dsimp only
    rw [hcm55, hcm6]
    have hr : clampRho (0.8 : ℝ) = 0.8 := by unfold clampRho; norm_num
    rw [hr]
    have harg : max ((0.55 : ℝ) * (1 - 0.55) * (0.6 * (1 - 0.6))) 0 = 0.0594 := by
      norm_num
    rw [show (0.55 : ℝ) * (1 - 0.55) * 0.6 * (1 - 0.6) =
      (0.55 : ℝ) * (1 - 0.55) * (0.6 * (1 - 0.6)) by ring, harg]
    have h1 : max (0 : ℝ) (0.55 + 0.6 - 1) = 0.15 := by norm_num
    have h2 : min (0.55 : ℝ) 0.6 = 0.55 := by norm_num
    rw [h1, h2]
    rw [max_eq_left (by nlinarith [hs0.le]), min_eq_left (by nlinarith)]
    norm_num
  have hjp : jointProbabilities (0.55 : ℝ) (0.6) (0.8) =
      ⟨0.33 + 0.8 * Real.sqrt (0.0594 : ℝ),
       0.55 - (0.33 + 0.8 * Real.sqrt (0.0594 : ℝ)),
       0.6 - (0.33 + 0.8 * Real.sqrt (0.0594 : ℝ)),
       1 - 0.55 - 0.6 + (0.33 + 0.8 * Real.sqrt (0.0594 : ℝ))⟩ := by
    rw [jointProbabilities_eq, hcm55, hcm6, hp11]
  refine ⟨hdir, ?_, by norm_num, ?_, ?_⟩
  · rw [hev, evMain_signed_correlation]
    exact hrho
  · rw [hev, evMain_scenario_probabilities]
    simp only [Option.getD_some]
    rw [hc55, hc6, hrho, hjp]
    dsimp only
    linarith
  · rw [hev, evMain_total_expected_profit]
    simp only [Option.getD_some]
    rw [hc4, hc6, hc55, hrho, hjp]
    unfold positionProfit
    dsimp only
    norm_num
    linarith

/-- `RelationService._calculate_volatility_from_price_changes`: collect the
absolute values of the price-change signals that are present and average
them, returning `0.0` when none is present. -/
def volatilityFromPriceChanges (m : Market) : ℝ :=
  let changes : List ℝ :=
    (match m.one_day_price_change with | some c => [|c|] | none => []) ++
    (match m.one_week_price_change with | some c => [|c|] | none => []) ++
    (match m.one_month_price_change with | some c => [|c|] | none => [])
  if changes.isEmpty then 0 else changes.sum / changes.length

/-- `calculate_volatility` from `market_analysis.py` — the same computation
restated at its second code site (`changes` built by three conditional
appends, `sum/len` when nonempty, else `0.0`). -/
def calculateVolatility (m : Market) : ℝ :=
  let changes : List ℝ :=
    (match m.one_day_price_change with | some c => [|c|] | none => []) ++
    (match m.one_week_price_change with | some c => [|c|] | none => []) ++
    (match m.one_month_price_change with | some c => [|c|] | none => [])
  if changes.isEmpty then 0 else changes.sum / changes.length

/-- Spec-side description of the volatility input: the absolute values of
whichever of the three price-change signals are present. -/
def presentAbsChanges (m : Market) : List ℝ :=
  ([m.one_day_price_change, m.one_week_price_change,
    m.one_month_price_change].reduceOption).map (fun c => |c|)

/-- Claim C6: for every market, both volatility implementations agree, the
value is the average of the absolute values of the price-change signals that
are present, and it is exactly `0.0` when all three are absent. -/
theorem volatility_average_of_present (m : Market) :
    calculateVolatility m = volatilityFromPriceChanges m ∧
    (m.one_day_price_change = none → m.one_week_price_change = none →
      m.one_month_price_change = none → volatilityFromPriceChanges m = 0) ∧
    (presentAbsChanges m ≠ [] →
      volatilityFromPriceChanges m =
        (presentAbsChanges m).sum / (presentAbsChanges m).length) := by
  obtain ⟨_, d, w, mo⟩ := m
  cases d <;> cases w <;> cases mo <;>
    simp [calculateVolatility, volatilityFromPriceChanges, presentAbsChanges,
      List.reduceOption]

/-- `abs(volatility1 - volatility2)` as computed by `calculate_pressure`. -/
def volatilityDiff (m1 m2 : Market) : ℝ :=
  |volatilityFromPriceChanges m1 - volatilityFromPriceChanges m2|

/-- The pressure factor of `RelationService.calculate_pressure`: `0.1` when
the volatility difference is not positive, otherwise `sqrt` of the difference
clamped into `[0.1, 1.0]` (`min` applied first, then `max`, as in the code). -/
def pressureFactor (volDiff : ℝ) : ℝ :=
  if volDiff ≤ 0 then 0.1 else max 0.1 (min 1 (Real.sqrt volDiff))

/-- `RelationService.calculate_pressure(similarity, correlation, market1,
market2)`: `similarity * correlation * pressure_factor`, clamped into
`[0, 1]` on return. -/
def calculatePressure (similarity correlation : ℝ) (m1 m2 : Market) : ℝ :=
  max 0 (min 1 (similarity * correlation * pressureFactor (volatilityDiff m1 m2)))

/-- A market whose only price-change signal is a one-day change of `0.10`,
hence of volatility exactly `0.10`. -/
def marketVolTenthA : Market := ⟨1, some 0.1, none, none⟩

/-- A second market with the same `0.10` volatility (id `2`). -/
def marketVolTenthB : Market := ⟨2, some 0.1, none, none⟩

lemma volatility_marketVolTenthA : volatilityFromPriceChanges marketVolTenthA = 0.1 := by
  simp [volatilityFromPriceChanges, marketVolTenthA]
  norm_num

lemma volatility_marketVolTenthB : volatilityFromPriceChanges marketVolTenthB = 0.1 := by
  simp [volatilityFromPriceChanges, marketVolTenthB]
  norm_num

/-- Claim C2: for similarity and correlation in `[0,1]` the pressure is in
`[0,1]`; a zero volatility difference forces the factor to be exactly `0.1`
(and then the pressure is `similarity * correlation * 0.1`); a positive
difference gives the factor `sqrt` clamped into `[0.1, 1.0]`; and the
concrete scenario (similarity `0.9`, correlation `0.9`, both volatilities
`0.10`) yields pressure exactly `0.081`. -/
theorem calculatePressure_bounds_factor (sim corr : ℝ) (m1 m2 : Market)
    (hs0 : 0 ≤ sim) (hs1 : sim ≤ 1) (hc0 : 0 ≤ corr) (hc1 : corr ≤ 1) :
    (0 ≤ calculatePressure sim corr m1 m2 ∧ calculatePressure sim corr m1 m2 ≤ 1) ∧
    (volatilityDiff m1 m2 = 0 →
      pressureFactor (volatilityDiff m1 m2) = 0.1 ∧
      calculatePressure sim corr m1 m2 = sim * corr * 0.1) ∧
    (0 < volatilityDiff m1 m2 →
      pressureFactor (volatilityDiff m1 m2) =
        max 0.1 (min 1 (Real.sqrt (volatilityDiff m1 m2)))) ∧
    calculatePressure (0.9) (0.9) marketVolTenthA marketVolTenthB = 0.081 := by
  refine ⟨⟨le_max_left _ _, max_le (by norm_num) (min_le_left _ _)⟩, ?_, ?_, ?_⟩
  · intro hdz
    have hf : pressureFactor (volatilityDiff m1 m2) = 0.1 := by
      unfold pressureFactor
      rw [if_pos (le_of_eq hdz)]
    refine ⟨hf, ?_⟩
    unfold calculatePressure
    rw [hf]
    have hub : sim * corr * 0.1 ≤ 1 := by nlinarith
    have hlb : 0 ≤ sim * corr * 0.1 := by positivity
    rw [min_eq_right hub, max_eq_right hlb]
  · intro hdp
    unfold pressureFactor
    rw [if_neg (not_le.mpr hdp)]
  · have hd : volatilityDiff marketVolTenthA marketVolTenthB = 0 := by
      unfold volatilityDiff
      rw [volatility_marketVolTenthA, volatility_marketVolTenthB]
      norm_num
    unfold calculatePressure
    rw [hd]
    have hf : pressureFactor 0 = 0.1 := by
      unfold pressureFactor
      rw [if_pos le_rfl]
    rw [hf]
    norm_num

/-- Witness for C2 at similarity `1/2`, correlation `1/2`, both markets the
concrete `0.10`-volatility market. -/
theorem calculatePressure_bounds_factor_witness :
    (0 ≤ (1/2 : ℝ) ∧ (1/2 : ℝ) ≤ 1) ∧
    (0 ≤ calculatePressure (1/2) (1/2) marketVolTenthA marketVolTenthB ∧
      calculatePressure (1/2) (1/2) marketVolTenthA marketVolTenthB ≤ 1) ∧
    calculatePressure (0.9) (0.9) marketVolTenthA marketVolTenthB = 0.081 :=
  have h := calculatePressure_bounds_factor (1/2) (1/2) marketVolTenthA marketVolTenthB
    (by norm_num) (by norm_num) (by norm_num) (by norm_num)
  ⟨⟨by norm_num, by norm_num⟩, h.1, h.2.2.2⟩

/-- A row of the `market_relations` table: the canonical market-id pair with
its scores. -/
structure RelationRecord where
  market_id_1 : ℤ
  market_id_2 : ℤ
  similarity : ℝ
  correlation : ℝ
  pressure : ℝ

/-- The row `RelationService.create_relation` writes: it stores
`(min(id1, id2), max(id1, id2))` whatever the argument order. -/
def createRelationData (marketId1 marketId2 : ℤ)
    (similarity correlation pressure : ℝ) : RelationRecord :=
  ⟨min marketId1 marketId2, max marketId1 marketId2, similarity, correlation, pressure⟩

/-- The record staged by the discovery loop of `create_all_relations` in
`create_relations.py` (`min_id`/`max_id` computed the same way before
appending to `relations_to_create`). -/
def stageRelation (marketId similarMarketId : ℤ)
    (similarity correlation pressure : ℝ) : RelationRecord :=
  ⟨min marketId similarMarketId, max marketId similarMarketId,
    similarity, correlation, pressure⟩

/-- Claim C7: `create_relation(a, b, ...)` and `create_relation(b, a, ...)`
write the identical canonical row, and every row written by the single-create
path and the batch-discovery path has `market_id_1 = min` and
`market_id_2 = max` of the pair. -/
theorem relation_canonicalization (a b : ℤ) (sim corr pres : ℝ) :
    createRelationData a b sim corr pres = createRelationData b a sim corr pres ∧
    (createRelationData a b sim corr pres).market_id_1 = min a b ∧
    (createRelationData a b sim corr pres).market_id_2 = max a b ∧
    (stageRelation a b sim corr pres).market_id_1 = min a b ∧
    (stageRelation a b sim corr pres).market_id_2 = max a b ∧
    stageRelation a b sim corr pres = createRelationData a b sim corr pres := by
  unfold createRelationData stageRelation
  refine ⟨?_, rfl, rfl, rfl, rfl, rfl⟩
  rw [min_comm b a, max_comm b a]

/-- The embedding row read back from the database
(`MarketEmbedding.market_id`, `.embedding`). -/
structure MarketEmbedding where
  market_id : ℤ
  embedding : List ℝ

/-- `np.dot` on two equal-length vectors: the sum of pointwise products. -/
def dotProduct (a b : List ℝ) : ℝ := (List.zipWith (fun x y => x * y) a b).sum

/-- `np.linalg.norm`: the square root of the sum of squares. -/
def vectorNorm (a : List ℝ) : ℝ := Real.sqrt ((a.map (fun x => x ^ 2)).sum)

/-- The accumulation loop of `find_markets_in_proximity`: skip zero-norm
embeddings, compute the cosine similarity, and append the pair when the
similarity reaches the threshold. -/
def proximityLoop (query : List ℝ) (threshold : ℝ)
    (corpus : List MarketEmbedding) : List (ℤ × ℝ) :=
  corpus.foldl (fun results emb =>
    if vectorNorm emb.embedding = 0 then results
    else
      if threshold ≤ dotProduct query emb.embedding /
          (vectorNorm query * vectorNorm emb.embedding) then
        results ++ [(emb.market_id,
          dotProduct query emb.embedding /
            (vectorNorm query * vectorNorm emb.embedding))]
      else results) []

/-- `VectorService.find_markets_in_proximity(query_embedding, threshold)`
restricted to its pure part (the corpus is passed in instead of fetched): the
loop above followed by the descending stable sort on the similarity. -/
def findMarketsInProximity (query : List ℝ) (corpus : List MarketEmbedding)
    (threshold : ℝ) : List (ℤ × ℝ) :=
  (proximityLoop query threshold corpus).mergeSort
    (fun x y => decide (y.2 ≤ x.2))

/-- Spec-side description of the returned set: the `(market_id, cosine
similarity)` pairs of the nonzero-norm corpus embeddings whose similarity
reaches the threshold. -/
def proximityCandidates (query : List ℝ) (threshold : ℝ)
    (corpus : List MarketEmbedding) : List (ℤ × ℝ) :=
  corpus.filterMap (fun emb =>
    if vectorNorm emb.embedding ≠ 0 ∧
        threshold ≤ dotProduct query emb.embedding /
          (vectorNorm query * vectorNorm emb.embedding) then
      some (emb.market_id,
        dotProduct query emb.embedding /
          (vectorNorm query * vectorNorm emb.embedding))
    else none)

lemma proximityLoop_acc (query : List ℝ) (threshold : ℝ)
    (corpus : List MarketEmbedding) (acc : List (ℤ × ℝ)) :
    corpus.foldl (fun results emb =>
      if vectorNorm emb.embedding = 0 then results
      else
        if threshold ≤ dotProduct query emb.embedding /
            (vectorNorm query * vectorNorm emb.embedding) then
          results ++ [(emb.market_id,
            dotProduct query emb.embedding /
              (vectorNorm query * vectorNorm emb.embedding))]
        else results) acc =
      acc ++ proximityCandidates query threshold corpus := by
  induction corpus generalizing acc with
  | nil => simp [proximityCandidates]
  | cons emb rest ih =>
      by_cases hz : vectorNorm emb.embedding = 0
      · rw [List.foldl_cons, if_pos hz]
        rw [ih]
        unfold proximityCandidates
        rw [List.filterMap_cons]
        rw [if_neg (by simp [hz])]
      · by_cases ht : threshold ≤ dotProduct query emb.embedding /
            (vectorNorm query * vectorNorm emb.embedding)
        · rw [List.foldl_cons, if_neg hz, if_pos ht]
          rw [ih]
          unfold proximityCandidates
          rw [List.filterMap_cons]
          rw [if_pos ⟨hz, ht⟩]
          simp
        · rw [List.foldl_cons, if_neg hz, if_neg ht]
          rw [ih]
          unfold proximityCandidates
          rw [List.filterMap_cons]
          rw [if_neg (by simp [ht])]

lemma proximityLoop_eq (query : List ℝ) (threshold : ℝ)
    (corpus : List MarketEmbedding) :
    proximityLoop query threshold corpus =
      proximityCandidates query threshold corpus := by
  unfold proximityLoop
  rw [proximityLoop_acc]
  simp

/-- Claim C9: for a query of nonzero norm, the proximity search returns
exactly the pairs `(market_id, dot/(‖q‖·‖e‖))` of the nonzero-norm corpus
embeddings whose similarity reaches the threshold (as a permutation of that
candidate list, i.e. nothing else and nothing missing), sorted in descending
order of similarity. -/
theorem findMarketsInProximity_spec (query : List ℝ)
    (corpus : List MarketEmbedding) (threshold : ℝ)
    (hq : vectorNorm query ≠ 0) :
    (findMarketsInProximity query corpus threshold).Perm
      (proximityCandidates query threshold corpus) ∧
    List.Sorted (fun x y : ℤ × ℝ => y.2 ≤ x.2)
      (findMarketsInProximity query corpus threshold) ∧
    (∀ p : ℤ × ℝ, p ∈ findMarketsInProximity query corpus threshold →
      threshold ≤ p.2 ∧ ∃ emb ∈ corpus, vectorNorm emb.embedding ≠ 0 ∧
        p.1 = emb.market_id ∧
        p.2 = dotProduct query emb.embedding /
          (vectorNorm query * vectorNorm emb.embedding)) ∧
    (∀ emb ∈ corpus, vectorNorm emb.embedding ≠ 0 →
      threshold ≤ dotProduct query emb.embedding /
        (vectorNorm query * vectorNorm emb.embedding) →
      (emb.market_id, dotProduct query emb.embedding /
        (vectorNorm query * vectorNorm emb.embedding)) ∈
        findMarketsInProximity query corpus threshold) := by
  have hperm : (findMarketsInProximity query corpus threshold).Perm
      (proximityCandidates query threshold corpus) := by
    unfold findMarketsInProximity
    rw [proximityLoop_eq]
    exact List.mergeSort_perm _ _
  have hmem : ∀ p : ℤ × ℝ, p ∈ findMarketsInProximity query corpus threshold ↔
      p ∈ proximityCandidates query threshold corpus := fun p => hperm.mem_iff
  refine ⟨hperm, ?_, ?_, ?_⟩
  · unfold findMarketsInProximity
    have hsorted := @List.sorted_mergeSort (ℤ × ℝ)
      (fun x y : ℤ × ℝ => decide (y.2 ≤ x.2))
      (fun a b c hab hbc => by
        simp only [decide_eq_true_eq] at hab hbc ⊢
        exact le_trans hbc hab)
      (fun a b => by
        simp only [Bool.or_eq_true, decide_eq_true_eq]
        exact le_total b.2 a.2)
      (proximityLoop query threshold corpus)
    unfold List.Sorted
    exact hsorted.imp (fun h => by simpa using h)
  · intro p hp
    rw [hmem] at hp
    unfold proximityCandidates at hp
    rw [List.mem_filterMap] at hp
    obtain ⟨emb, hemb, hsome⟩ := hp
    by_cases hcond : vectorNorm emb.embedding ≠ 0 ∧
        threshold ≤ dotProduct query emb.embedding /
          (vectorNorm query * vectorNorm emb.embedding)
    · rw [if_pos hcond] at hsome
      obtain ⟨h1, h2⟩ := hcond
      cases hsome
      exact ⟨h2, emb, hemb, h1, rfl, rfl⟩
    · rw [if_neg hcond] at hsome
      cases hsome
  · intro emb hemb h1 h2
    rw [hmem]
    unfold proximityCandidates
    rw [List.mem_filterMap]
    exact ⟨emb, hemb, by rw [if_pos ⟨h1, h2⟩]⟩

/-- Witness for C9: a one-vector query over a two-embedding corpus (one of
them zero-norm), threshold `0`. -/
theorem findMarketsInProximity_spec_witness :
    vectorNorm [(1 : ℝ)] ≠ 0 ∧
    (findMarketsInProximity [(1 : ℝ)] [⟨5, [1]⟩, ⟨6, [0]⟩] 0).Perm
      (proximityCandidates [(1 : ℝ)] 0 [⟨5, [1]⟩, ⟨6, [0]⟩]) ∧
    List.Sorted (fun x y : ℤ × ℝ => y.2 ≤ x.2)
      (findMarketsInProximity [(1 : ℝ)] [⟨5, [1]⟩, ⟨6, [0]⟩] 0) :=
  have hq : vectorNorm [(1 : ℝ)] ≠ 0 := by
    unfold vectorNorm
    simp
  have h := findMarketsInProximity_spec [(1 : ℝ)] [⟨5, [1]⟩, ⟨6, [0]⟩] 0 hq
  ⟨hq, h.1, h.2.1⟩

/-- The canonical key of a staged relation record (it already stores the
canonicalized pair, so the dictionary key of the dedupe loop is just the two
id fields). -/
def relationKey (r : RelationRecord) : ℤ × ℤ := (r.market_id_1, r.market_id_2)

/-- Lookup in the insertion-ordered dictionary `unique_relations`, modelled as
an association list. -/
def lookupKey (k : ℤ × ℤ) :
    List ((ℤ × ℤ) × RelationRecord) → Option RelationRecord
  | [] => none
  | kv :: rest => if kv.1 = k then some kv.2 else lookupKey k rest

/-- In-place overwrite `unique_relations[key] = rel` for a key already
present: replace the first entry carrying the key, keep the rest. -/
def replaceKey (k : ℤ × ℤ) (r : RelationRecord) :
    List ((ℤ × ℤ) × RelationRecord) → List ((ℤ × ℤ) × RelationRecord)
  | [] => []
  | kv :: rest => if kv.1 = k then (k, r) :: rest else kv :: replaceKey k r rest

/-- One iteration of the dedupe loop in `create_all_relations`: insert a new
key at the end, and on a key collision keep the incumbent unless the new
record has strictly higher similarity. -/
def dedupeInsert (acc : List ((ℤ × ℤ) × RelationRecord)) (r : RelationRecord) :
    List ((ℤ × ℤ) × RelationRecord) :=
  match lookupKey (relationKey r) acc with
  | none => acc ++ [(relationKey r, r)]
  | some cur =>
      if cur.similarity < r.similarity then replaceKey (relationKey r) r acc
      else acc

/-- The dedupe phase of `create_all_relations`: fold the staged records into
the `unique_relations` dictionary. -/
def dedupeRelations (rels : List RelationRecord) :
    List ((ℤ × ℤ) × RelationRecord) :=
  rels.foldl dedupeInsert []

lemma dedupeInsert_of_none (acc : List ((ℤ × ℤ) × RelationRecord))
    (r : RelationRecord) (h : lookupKey (relationKey r) acc = none) :
    dedupeInsert acc r = acc ++ [(relationKey r, r)] := by
  unfold dedupeInsert
  rw [h]

lemma dedupeInsert_of_some_lt (acc : List ((ℤ × ℤ) × RelationRecord))
    (r cur : RelationRecord) (h : lookupKey (relationKey r) acc = some cur)
    (hlt : cur.similarity < r.similarity) :
    dedupeInsert acc r = replaceKey (relationKey r) r acc := by
  unfold dedupeInsert
  rw [h]
  exact if_pos hlt

lemma dedupeInsert_of_some_ge (acc : List ((ℤ × ℤ) × RelationRecord))
    (r cur : RelationRecord) (h : lookupKey (relationKey r) acc = some cur)
    (hge : ¬ cur.similarity < r.similarity) :
    dedupeInsert acc r = acc := by
  unfold dedupeInsert
  rw [h]
  exact if_neg hge

lemma lookupKey_eq_none (k : ℤ × ℤ) (acc : List ((ℤ × ℤ) × RelationRecord)) :
    lookupKey k acc = none ↔ ∀ kv ∈ acc, kv.1 ≠ k := by
  induction acc with
  | nil => simp [lookupKey]
  | cons kv rest ih =>
      by_cases hk : kv.1 = k
      · simp [lookupKey, hk]
      · simp [lookupKey, hk, ih]

lemma lookupKey_some_mem (k : ℤ × ℤ) (acc : List ((ℤ × ℤ) × RelationRecord))
    (v : RelationRecord) (h : lookupKey k acc = some v) : (k, v) ∈ acc := by
  induction acc with
  | nil => simp [lookupKey] at h
  | cons kv rest ih =>
      by_cases hk : kv.1 = k
      · rw [lookupKey, if_pos hk] at h
        have hv : kv.2 = v := by injection h
        have hkv : kv = (k, v) := by
          rw [← hk, ← hv]
        rw [← hkv]
        exact List.mem_cons_self _ _
      · rw [lookupKey, if_neg hk] at h
        exact List.mem_cons_of_mem _ (ih h)

lemma keys_unique_val (acc : List ((ℤ × ℤ) × RelationRecord))
    (h : (acc.map Prod.fst).Nodup) (k : ℤ × ℤ) (v w : RelationRecord)
    (hv : (k, v) ∈ acc) (hw : (k, w) ∈ acc) : v = w := by
  induction acc with
  | nil => simp at hv
  | cons kv rest ih =>
      rw [List.map_cons, List.nodup_cons] at h
      rcases List.mem_cons.mp hv with hv1 | hv2 <;>
        rcases List.mem_cons.mp hw with hw1 | hw2
      · rw [← hv1] at hw1
        injection hw1.symm
      · exfalso
        apply h.1
        rw [← hv1]
        exact List.mem_map.mpr ⟨(k, w), hw2, rfl⟩
      · exfalso
        apply h.1
        rw [← hw1]
        exact List.mem_map.mpr ⟨(k, v), hv2, rfl⟩
      · exact ih h.2 hv2 hw2

lemma replaceKey_map_fst (k : ℤ × ℤ) (r : RelationRecord)
    (acc : List ((ℤ × ℤ) × RelationRecord)) :
    (replaceKey k r acc).map Prod.fst = acc.map Prod.fst := by
  induction acc with
  | nil => rfl
  | cons kv rest ih =>
      by_cases hk : kv.1 = k
      · rw [replaceKey, if_pos hk]
        simp [hk]
      · rw [replaceKey, if_neg hk]
        simp [ih]

lemma mem_replaceKey (k : ℤ × ℤ) (r : RelationRecord)
    (acc : List ((ℤ × ℤ) × RelationRecord))
    (hnd : (acc.map Prod.fst).Nodup) (cur : RelationRecord)
    (hcur : (k, cur) ∈ acc) (kv' : (ℤ × ℤ) × RelationRecord) :
    kv' ∈ replaceKey k r acc ↔ kv' = (k, r) ∨ (kv' ∈ acc ∧ kv'.1 ≠ k) := by
  induction acc with
  | nil => simp at hcur
  | cons kv rest ih =>
      rw [List.map_cons, List.nodup_cons] at hnd
      by_cases hk : kv.1 = k
      · rw [replaceKey, if_pos hk]
        constructor
        · intro hmem
          rcases List.mem_cons.mp hmem with h1 | h2
          · exact Or.inl h1
          · refine Or.inr ⟨List.mem_cons_of_mem _ h2, ?_⟩
            intro hkv'
            apply hnd.1
            rw [hk, ← hkv']
            exact List.mem_map_of_mem Prod.fst h2
        · intro hmem
          rcases hmem with h1 | ⟨h2, h3⟩
          · rw [h1]
            exact List.mem_cons_self _ _
          · rcases List.mem_cons.mp h2 with h4 | h5
            · exfalso
              apply h3
              rw [h4, hk]
            · exact List.mem_cons_of_mem _ h5
      · rw [replaceKey, if_neg hk]
        have hcur' : (k, cur) ∈ rest := by
          rcases List.mem_cons.mp hcur with h1 | h2
          · exfalso
            apply hk
            rw [← h1]
          · exact h2
        rw [List.mem_cons, ih hnd.2 hcur']
        constructor
        · intro hmem
          rcases hmem with h1 | h2 | h3
          · refine Or.inr ⟨?_, ?_⟩
            · rw [h1]
              exact List.mem_cons_self _ _
            · rw [h1]
              exact hk
          · exact Or.inl h2
          · exact Or.inr ⟨List.mem_cons_of_mem _ h3.1, h3.2⟩
        · intro hmem
          rcases hmem with h1 | ⟨h2, h3⟩
          · exact Or.inr (Or.inl h1)
          · rcases List.mem_cons.mp h2 with h4 | h5
            · exact Or.inl h4
            · exact Or.inr (Or.inr ⟨h5, h3⟩)

/-- The dictionary invariant of the dedupe fold: keys are unique, every entry
stores its own canonical key and a processed record of maximal similarity for
that key, and every processed record has an entry for its key. -/
lemma dedupe_invariant (l seen : List RelationRecord)
    (acc : List ((ℤ × ℤ) × RelationRecord))
    (h1 : (acc.map Prod.fst).Nodup)
    (h2 : ∀ kv ∈ acc, kv.1 = relationKey kv.2 ∧ kv.2 ∈ seen ∧
      ∀ s ∈ seen, relationKey s = kv.1 → s.similarity ≤ kv.2.similarity)
    (h3 : ∀ r ∈ seen, ∃ kv ∈ acc, kv.1 = relationKey r) :
    ((List.foldl dedupeInsert acc l).map Prod.fst).Nodup ∧
    (∀ kv ∈ List.foldl dedupeInsert acc l, kv.1 = relationKey kv.2 ∧
      kv.2 ∈ seen ++ l ∧
      ∀ s ∈ seen ++ l, relationKey s = kv.1 → s.similarity ≤ kv.2.similarity) ∧
    (∀ r ∈ seen ++ l, ∃ kv ∈ List.foldl dedupeInsert acc l, kv.1 = relationKey r) := by
  induction l generalizing seen acc with
  | nil =>
      rw [List.foldl_nil, List.append_nil]
      exact ⟨h1, h2, h3⟩
  | cons r rest ih =>
      rw [List.foldl_cons]
      suffices hsuf : ((dedupeInsert acc r).map Prod.fst).Nodup ∧
          (∀ kv ∈ dedupeInsert acc r, kv.1 = relationKey kv.2 ∧
            kv.2 ∈ seen ++ [r] ∧
            ∀ s ∈ seen ++ [r], relationKey s = kv.1 →
              s.similarity ≤ kv.2.similarity) ∧
          (∀ s ∈ seen ++ [r], ∃ kv ∈ dedupeInsert acc r,
            kv.1 = relationKey s) by
        have hmain := ih (seen ++ [r]) (dedupeInsert acc r)
          hsuf.1 hsuf.2.1 hsuf.2.2
        simp only [List.append_assoc, List.singleton_append] at hmain
        exact hmain
      rcases hlk : lookupKey (relationKey r) acc with _ | cur
      · have hnotin : ∀ kv ∈ acc, kv.1 ≠ relationKey r :=
          (lookupKey_eq_none _ _).mp hlk
        rw [dedupeInsert_of_none acc r hlk]
        refine ⟨?_, ?_, ?_⟩
        · rw [List.map_append, List.map_cons, List.map_nil, List.nodup_append]
          refine ⟨h1, List.nodup_singleton _, ?_⟩
          intro x hx hx'
          rw [List.mem_singleton] at hx'
          obtain ⟨kv, hkv, hfst⟩ := List.mem_map.mp hx
          exact hnotin kv hkv (by rw [hfst, hx'])
        · intro kv hkv
          rcases List.mem_append.mp hkv with hin | hnew
          · obtain ⟨ha, hb, hc⟩ := h2 kv hin
            refine ⟨ha, List.mem_append_left _ hb, ?_⟩
            intro s hs hks
            rcases List.mem_append.mp hs with hs1 | hs2
            · exact hc s hs1 hks
            · rw [List.mem_singleton] at hs2
              subst hs2
              exact absurd hks.symm (hnotin kv hin)
          · rw [List.mem_singleton] at hnew
            subst hnew
            refine ⟨rfl, List.mem_append_right _ (List.mem_singleton.mpr rfl), ?_⟩
            intro s hs hks
            rcases List.mem_append.mp hs with hs1 | hs2
            · exfalso
              obtain ⟨kv', hkv', hkey'⟩ := h3 s hs1
              exact hnotin kv' hkv' (hkey'.trans hks)
            · rw [List.mem_singleton] at hs2
              subst hs2
              exact le_refl _
        · intro s hs
          rcases List.mem_append.mp hs with hs1 | hs2
          · obtain ⟨kv, hkv, hkey⟩ := h3 s hs1
            exact ⟨kv, List.mem_append_left _ hkv, hkey⟩
          · rw [List.mem_singleton] at hs2
            subst hs2
            exact ⟨(relationKey s, s),
              List.mem_append_right _ (List.mem_singleton.mpr rfl), rfl⟩
      · have hmemcur : (relationKey r, cur) ∈ acc := lookupKey_some_mem _ _ _ hlk
        obtain ⟨hkeycur, hcurseen, hmaxcur⟩ := h2 _ hmemcur
        by_cases hlt : cur.similarity < r.similarity
        · rw [dedupeInsert_of_some_lt acc r cur hlk hlt]
          have hrep := mem_replaceKey (relationKey r) r acc h1 cur hmemcur
          refine ⟨?_, ?_, ?_⟩
          · rw [replaceKey_map_fst]
            exact h1
          · intro kv hkv
            rcases (hrep kv).mp hkv with h4 | ⟨h5, h6⟩
            · subst h4
              refine ⟨rfl, List.mem_append_right _ (List.mem_singleton.mpr rfl), ?_⟩
              intro s hs hks
              rcases List.mem_append.mp hs with hs1 | hs2
              · exact le_trans (hmaxcur s hs1 hks) hlt.le
              · rw [List.mem_singleton] at hs2
                subst hs2
                exact le_refl _
            · obtain ⟨ha, hb, hc⟩ := h2 kv h5
              refine ⟨ha, List.mem_append_left _ hb, ?_⟩
              intro s hs hks
              rcases List.mem_append.mp hs with hs1 | hs2
              · exact hc s hs1 hks
              · rw [List.mem_singleton] at hs2
                subst hs2
                exact absurd hks.symm h6
          · intro s hs
            rcases List.mem_append.mp hs with hs1 | hs2
            · obtain ⟨kv, hkv, hkey⟩ := h3 s hs1
              by_cases hkk : kv.1 = relationKey r
              · exact ⟨(relationKey r, r), (hrep _).mpr (Or.inl rfl),
                  hkk.symm.trans hkey⟩
              · exact ⟨kv, (hrep kv).mpr (Or.inr ⟨hkv, hkk⟩), hkey⟩
            · rw [List.mem_singleton] at hs2
              subst hs2
              exact ⟨(relationKey s, s), (hrep _).mpr (Or.inl rfl), rfl⟩
        · rw [dedupeInsert_of_some_ge acc r cur hlk hlt]
          refine ⟨h1, ?_, ?_⟩
          · intro kv hkv
            obtain ⟨kk, kr⟩ := kv
            obtain ⟨ha, hb, hc⟩ := h2 (kk, kr) hkv
            refine ⟨ha, List.mem_append_left _ hb, ?_⟩
            intro s hs hks
            rcases List.mem_append.mp hs with hs1 | hs2
            · exact hc s hs1 hks
            · rw [List.mem_singleton] at hs2
              subst hs2
              have hkk : kk = relationKey s := hks.symm
              subst hkk
              have hcureq : kr = cur :=
                keys_unique_val acc h1 (relationKey s) kr cur hkv hmemcur
              rw [hcureq]
              exact not_lt.mp hlt
          · intro s hs
            rcases List.mem_append.mp hs with hs1 | hs2
            · exact h3 s hs1
            · rw [List.mem_singleton] at hs2
              subst hs2
              exact ⟨(relationKey s, cur), hmemcur, rfl⟩

lemma dedupeRelations_char (l : List RelationRecord) :
    ((dedupeRelations l).map Prod.fst).Nodup ∧
    (∀ kv ∈ dedupeRelations l, kv.1 = relationKey kv.2 ∧ kv.2 ∈ l ∧
      ∀ s ∈ l, relationKey s = kv.1 → s.similarity ≤ kv.2.similarity) ∧
    (∀ r ∈ l, ∃ kv ∈ dedupeRelations l, kv.1 = relationKey r) := by
  have h := dedupe_invariant l [] [] (by simp) (by simp) (by simp)
  simpa [dedupeRelations] using h

lemma lookupKey_dedupe_some (l : List RelationRecord) (k : ℤ × ℤ)
    (r : RelationRecord) (h : lookupKey k (dedupeRelations l) = some r) :
    r ∈ l ∧ relationKey r = k ∧
      ∀ s ∈ l, relationKey s = k → s.similarity ≤ r.similarity := by
  have hmem := lookupKey_some_mem _ _ _ h
  obtain ⟨hkey, hrl, hmax⟩ := (dedupeRelations_char l).2.1 (k, r) hmem
  exact ⟨hrl, hkey.symm, hmax⟩

lemma lookupKey_dedupe_none (l : List RelationRecord) (k : ℤ × ℤ)
    (h : lookupKey k (dedupeRelations l) = none) :
    ∀ r ∈ l, relationKey r ≠ k := by
  intro r hr hk
  obtain ⟨kv, hkv, hkey⟩ := (dedupeRelations_char l).2.2 r hr
  exact (lookupKey_eq_none k (dedupeRelations l)).mp h kv hkv (hkey.trans hk)

/-- Claim C8 (amended): the dedupe step keeps at most one record per canonical
pair (keys are unique and each entry is keyed by its own canonical pair), the
kept record for a pair is one of the staged records of maximal similarity for
that pair, and — provided no two staged records for the same pair tie on
similarity — the kept record per pair is the same for any reordering of the
staged list.  (Unrestricted order-independence fails: on a similarity tie the
first staged record wins, see the counterexample.) -/
theorem dedupeRelations_amended (l1 l2 : List RelationRecord) (k : ℤ × ℤ)
    (hperm : l1.Perm l2)
    (hdist : ∀ r ∈ l1, ∀ s ∈ l1, relationKey r = relationKey s →
      r.similarity = s.similarity → r = s) :
    ((dedupeRelations l1).map Prod.fst).Nodup ∧
    (∀ kv ∈ dedupeRelations l1, kv.1 = relationKey kv.2) ∧
    (∀ r, lookupKey k (dedupeRelations l1) = some r →
      r ∈ l1 ∧ relationKey r = k ∧
      ∀ s ∈ l1, relationKey s = k → s.similarity ≤ r.similarity) ∧
    lookupKey k (dedupeRelations l1) = lookupKey k (dedupeRelations l2) := by
  refine ⟨(dedupeRelations_char l1).1,
    fun kv hkv => ((dedupeRelations_char l1).2.1 kv hkv).1,
    fun r hr => lookupKey_dedupe_some l1 k r hr, ?_⟩
  rcases hl1 : lookupKey k (dedupeRelations l1) with _ | r1 <;>
    rcases hl2 : lookupKey k (dedupeRelations l2) with _ | r2
  · rfl
  · exfalso
    obtain ⟨hr2, hk2, _⟩ := lookupKey_dedupe_some l2 k r2 hl2
    exact lookupKey_dedupe_none l1 k hl1 r2 (hperm.mem_iff.mpr hr2) hk2
  · exfalso
    obtain ⟨hr1, hk1, _⟩ := lookupKey_dedupe_some l1 k r1 hl1
    exact lookupKey_dedupe_none l2 k hl2 r1 (hperm.mem_iff.mp hr1) hk1
  · obtain ⟨hr1, hk1, hmax1⟩ := lookupKey_dedupe_some l1 k r1 hl1
    obtain ⟨hr2, hk2, hmax2⟩ := lookupKey_dedupe_some l2 k r2 hl2
    have hr2' : r2 ∈ l1 := hperm.mem_iff.mpr hr2
    have hr1' : r1 ∈ l2 := hperm.mem_iff.mp hr1
    have hle1 : r2.similarity ≤ r1.similarity := hmax1 r2 hr2' hk2
    have hle2 : r1.similarity ≤ r2.similarity := hmax2 r1 hr1' hk1
    have heq : r1 = r2 :=
      hdist r1 hr1 r2 hr2' (hk1.trans hk2.symm) (le_antisymm hle2 hle1)
    rw [heq]

/-- A staged record for the canonical pair `(1, 2)` with similarity `0.5` and
pressure `0.3`. -/
def relTieA : RelationRecord := ⟨1, 2, 0.5, 1, 0.3⟩

/-- A second staged record for the same pair `(1, 2)` with the same similarity
`0.5` but pressure `0.7`. -/
def relTieB : RelationRecord := ⟨1, 2, 0.5, 1, 0.7⟩

lemma dedupe_relTie_AB :
    dedupeRelations [relTieA, relTieB] = [((1, 2), relTieA)] := by
  unfold dedupeRelations
  rw [List.foldl_cons]
  have h0 : dedupeInsert [] relTieA = [((1, 2), relTieA)] := by
    rw [dedupeInsert_of_none [] relTieA rfl]
    rfl
  rw [h0, List.foldl_cons, List.foldl_nil]
  have hlook : lookupKey (relationKey relTieB) [((1, 2), relTieA)] =
      some relTieA := by
    unfold relationKey relTieB
    rw [lookupKey, if_pos rfl]
  exact dedupeInsert_of_some_ge _ _ _ hlook (by unfold relTieA relTieB; norm_num)

lemma dedupe_relTie_BA :
    dedupeRelations [relTieB, relTieA] = [((1, 2), relTieB)] := by
  unfold dedupeRelations
  rw [List.foldl_cons]
  have h0 : dedupeInsert [] relTieB = [((1, 2), relTieB)] := by
    rw [dedupeInsert_of_none [] relTieB rfl]
    rfl
  rw [h0, List.foldl_cons, List.foldl_nil]
  have hlook : lookupKey (relationKey relTieA) [((1, 2), relTieB)] =
      some relTieB := by
    unfold relationKey relTieA
    rw [lookupKey, if_pos rfl]
  exact dedupeInsert_of_some_ge _ _ _ hlook (by unfold relTieA relTieB; norm_num)

/-- Counterexample to C8 as stated: the two staged lists `[relTieA, relTieB]`
and `[relTieB, relTieA]` are permutations of each other, both stage the same
canonical pair `(1, 2)`, yet the kept record differs (the records tie on
similarity and the first one staged wins), so the kept record per pair is not
order-independent in general. -/
theorem dedupeRelations_order_counterexample :
    List.Perm [relTieA, relTieB] [relTieB, relTieA] ∧
    lookupKey (1, 2) (dedupeRelations [relTieA, relTieB]) = some relTieA ∧
    lookupKey (1, 2) (dedupeRelations [relTieB, relTieA]) = some relTieB ∧
    relTieA ≠ relTieB := by
  refine ⟨List.Perm.swap relTieB relTieA [], ?_, ?_, ?_⟩
  · rw [dedupe_relTie_AB, lookupKey, if_pos rfl]
  · rw [dedupe_relTie_BA, lookupKey, if_pos rfl]
  · intro h
    have : (0.3 : ℝ) = 0.7 := congrArg RelationRecord.pressure h
    norm_num at this

/-- Witness for C8 (amended) on a staged list of two records for distinct
pairs, and its reversal. -/
theorem dedupeRelations_amended_witness :
    List.Perm [relTieA, stageRelation 3 4 (0.6) 1 (0.2)]
      [stageRelation 3 4 (0.6) 1 (0.2), relTieA] ∧
    (∀ r ∈ [relTieA, stageRelation 3 4 (0.6) 1 (0.2)],
      ∀ s ∈ [relTieA, stageRelation 3 4 (0.6) 1 (0.2)],
      relationKey r = relationKey s → r.similarity = s.similarity → r = s) ∧
    ((dedupeRelations [relTieA, stageRelation 3 4 (0.6) 1 (0.2)]).map
      Prod.fst).Nodup ∧
    lookupKey (1, 2) (dedupeRelations [relTieA, stageRelation 3 4 (0.6) 1 (0.2)]) =
      lookupKey (1, 2) (dedupeRelations [stageRelation 3 4 (0.6) 1 (0.2), relTieA]) :=
  have hperm : List.Perm [relTieA, stageRelation 3 4 (0.6) 1 (0.2)]
      [stageRelation 3 4 (0.6) 1 (0.2), relTieA] :=
    List.Perm.swap (stageRelation 3 4 (0.6) 1 (0.2)) relTieA []
  have hdist : ∀ r ∈ [relTieA, stageRelation 3 4 (0.6) 1 (0.2)],
      ∀ s ∈ [relTieA, stageRelation 3 4 (0.6) 1 (0.2)],
      relationKey r = relationKey s → r.similarity = s.similarity → r = s := by
    intro r hr s hs hk hsim
    rcases List.mem_cons.mp hr with h1 | h1' <;>
      rcases List.mem_cons.mp hs with h2 | h2'
    · rw [h1, h2]
    · exfalso
      rw [List.mem_singleton] at h2'
      rw [h1, h2'] at hk
      unfold relationKey relTieA stageRelation at hk
      rw [Prod.mk.injEq] at hk
      norm_num at hk
    · exfalso
      rw [List.mem_singleton] at h1'
      rw [h1', h2] at hk
      unfold relationKey relTieA stageRelation at hk
      rw [Prod.mk.injEq] at hk
      norm_num at hk
    · rw [List.mem_singleton] at h1' h2'
      rw [h1', h2']
  have h := dedupeRelations_amended [relTieA, stageRelation 3 4 (0.6) 1 (0.2)]
    [stageRelation 3 4 (0.6) 1 (0.2), relTieA] (1, 2) hperm hdist
  ⟨hperm, hdist, h.1, h.2.2.2⟩

end HackNation
